import Mathlib

/-!
# Verification of the key-derivation core (`src/kdf.rs`)

Shallow embedding of the multichain gas station contract's KDF module:
epsilon derivation (SHA-256 hash-to-scalar), secp256k1 child-key derivation,
Ethereum address derivation (Keccak-256), and NEAR public-key parsing.

Bytes are modelled as `Nat` (values < 256), byte strings as `List Nat`,
field elements and scalars as `Nat` in canonical reduced form.  The
cryptographic primitives (SHA-256, Keccak-256, secp256k1 Jacobian
arithmetic) are embedded as executable functions so that every statement
can be evaluated on concrete inputs.
-/

set_option maxRecDepth 1000000

namespace Kdf

/-! ## Byte-level helpers -/

/-- Fixed-width big-endian byte serialization (most significant byte first). -/
def beBytes : Nat → Nat → List Nat
  | 0, _ => []
  | k + 1, n => beBytes k (n / 256) ++ [n % 256]

/-- Fixed-width little-endian byte serialization (least significant byte first). -/
def leBytes : Nat → Nat → List Nat
  | 0, _ => []
  | k + 1, n => n % 256 :: leBytes k (n / 256)

/-- Interpret a byte list as a big-endian unsigned integer. -/
def beToNat (l : List Nat) : Nat := l.foldl (fun acc b => acc * 256 + b) 0

/-- Interpret a byte list as a little-endian unsigned integer. -/
def leToNat (l : List Nat) : Nat := l.foldr (fun b acc => b + 256 * acc) 0

theorem beBytes_length (k n : Nat) : (beBytes k n).length = k := by
  induction k generalizing n with
  | zero => rfl
  | succ k ih => simp [beBytes, ih]

theorem leBytes_length (k n : Nat) : (leBytes k n).length = k := by
  induction k generalizing n with
  | zero => rfl
  | succ k ih => simp [leBytes, ih]

theorem beToNat_append_singleton (l : List Nat) (b : Nat) :
    beToNat (l ++ [b]) = beToNat l * 256 + b := by
  simp [beToNat, List.foldl_append]

theorem beToNat_beBytes (k n : Nat) : beToNat (beBytes k n) = n % 256 ^ k := by
  induction k generalizing n with
  | zero => simp [beBytes, beToNat, Nat.mod_one]
  | succ k ih =>
      rw [beBytes, beToNat_append_singleton, ih, pow_succ,
        mul_comm ((256:Nat) ^ k) 256, Nat.mod_mul]
      ring

/-! ## SHA-256 -/

/-- Right rotation of a 32-bit word. -/
def rotr32 (x r : Nat) : Nat := ((x >>> r) ||| (x <<< (32 - r))) % 4294967296

/-- SHA-256 round constants (fractional parts of cube roots of the first
64 primes). -/
def shaK : List Nat :=
  [1116352408, 1899447441, 3049323471, 3921009573, 961987163,
   1508970993, 2453635748, 2870763221, 3624381080, 310598401,
   607225278, 1426881987, 1925078388, 2162078206, 2614888103,
   3248222580, 3835390401, 4022224774, 264347078, 604807628,
   770255983, 1249150122, 1555081692, 1996064986, 2554220882,
   2821834349, 2952996808, 3210313671, 3336571891, 3584528711,
   113926993, 338241895, 666307205, 773529912, 1294757372,
   1396182291, 1695183700, 1986661051, 2177026350, 2456956037,
   2730485921, 2820302411, 3259730800, 3345764771, 3516065817,
   3600352804, 4094571909, 275423344, 430227734, 506948616,
   659060556, 883997877, 958139571, 1322822218, 1537002063,
   1747873779, 1955562222, 2024104815, 2227730452, 2361852424,
   2428436474, 2756734187, 3204031479, 3329325298]

/-- The eight 32-bit working variables of the SHA-256 compression function. -/
structure ShaState where
  a : Nat
  b : Nat
  c : Nat
  d : Nat
  e : Nat
  f : Nat
  g : Nat
  h : Nat
deriving DecidableEq

/-- SHA-256 initial hash value (fractional parts of square roots of the
first 8 primes). -/
def shaInit : ShaState :=
  ⟨1779033703, 3144134277, 1013904242, 2773480762,
   1359893119, 2600822924, 528734635, 1541459225⟩

/-- Message schedule: 16 big-endian words from the 64-byte chunk, extended
to 64 words. -/
def shaSchedule (chunk : List Nat) : List Nat :=
  let w16 := (List.range 16).map (fun i => beToNat ((chunk.drop (4 * i)).take 4))
  (List.range 48).foldl
    (fun w i =>
      let x15 := w.getD (i + 1) 0
      let x2 := w.getD (i + 14) 0
      let s0 := rotr32 x15 7 ^^^ rotr32 x15 18 ^^^ (x15 >>> 3)
      let s1 := rotr32 x2 17 ^^^ rotr32 x2 19 ^^^ (x2 >>> 10)
      w ++ [(w.getD i 0 + s0 + w.getD (i + 9) 0 + s1) % 4294967296])
    w16

/-- One application of the SHA-256 compression function to a 64-byte chunk. -/
def shaCompress (st : ShaState) (chunk : List Nat) : ShaState :=
  let w := shaSchedule chunk
  let r := (List.range 64).foldl
    (fun v i =>
      let S1 := rotr32 v.e 6 ^^^ rotr32 v.e 11 ^^^ rotr32 v.e 25
      let ch := (v.e &&& v.f) ^^^ ((4294967295 ^^^ v.e) &&& v.g)
      let t1 := (v.h + S1 + ch + shaK.getD i 0 + w.getD i 0) % 4294967296
      let S0 := rotr32 v.a 2 ^^^ rotr32 v.a 13 ^^^ rotr32 v.a 22
      let mj := (v.a &&& v.b) ^^^ (v.a &&& v.c) ^^^ (v.b &&& v.c)
      let t2 := (S0 + mj) % 4294967296
      ⟨(t1 + t2) % 4294967296, v.a, v.b, v.c, (v.d + t1) % 4294967296, v.e, v.f, v.g⟩)
    st
  ⟨(st.a + r.a) % 4294967296, (st.b + r.b) % 4294967296, (st.c + r.c) % 4294967296,
   (st.d + r.d) % 4294967296, (st.e + r.e) % 4294967296, (st.f + r.f) % 4294967296,
   (st.g + r.g) % 4294967296, (st.h + r.h) % 4294967296⟩

/-- SHA-256 padding: append 0x80, zero bytes, and the 64-bit big-endian
bit length, reaching a multiple of 64 bytes. -/
def shaPad (msg : List Nat) : List Nat :=
  msg ++ 0x80 :: List.replicate ((119 - msg.length % 64) % 64) 0 ++ beBytes 8 (8 * msg.length)

/-- Split a byte list into 64-byte chunks (fuel-driven structural recursion). -/
def chunks64 : Nat → List Nat → List (List Nat)
  | 0, _ => []
  | _ + 1, [] => []
  | fuel + 1, l => l.take 64 :: chunks64 fuel (l.drop 64)

/-- SHA-256 of a byte string, as its 32 digest bytes. -/
def sha256 (msg : List Nat) : List Nat :=
  let padded := shaPad msg
  let st := (chunks64 padded.length padded).foldl shaCompress shaInit
  beBytes 4 st.a ++ beBytes 4 st.b ++ beBytes 4 st.c ++ beBytes 4 st.d ++
    beBytes 4 st.e ++ beBytes 4 st.f ++ beBytes 4 st.g ++ beBytes 4 st.h

/-- A SHA-256 digest is always exactly 32 bytes. -/
theorem sha256_length (msg : List Nat) : (sha256 msg).length = 32 := by
  simp [sha256, beBytes_length]

/-! ## Keccak-256 (the Ethereum address hash) -/

/-- Left rotation of a 64-bit lane. -/
def rotl64 (x r : Nat) : Nat :=
  ((x <<< r) ||| (x >>> (64 - r))) % 18446744073709551616

/-- Keccak rho-step rotation offsets, indexed by lane `x + 5 * y`, built by
the standard walk: position `(1,0)`, then `(x,y) := (y, 2x+3y mod 5)`, with
offset `(t+1)(t+2)/2 mod 64` at step `t`. -/
def keccakRho : List Nat :=
  ((List.range 24).foldl
    (fun st t =>
      let tbl := st.2.2.set (st.1 + 5 * st.2.1) ((t + 1) * (t + 2) / 2 % 64)
      (st.2.1, (2 * st.1 + 3 * st.2.1) % 5, tbl))
    ((1, 0, List.replicate 25 0) : Nat × Nat × List Nat)).2.2

/-- Keccak iota-step round constants for the 24 rounds of Keccak-f[1600]. -/
def keccakRC : List Nat :=
  [1, 32898, 9223372036854808714,
   9223372039002292224, 32907, 2147483649,
   9223372039002292353, 9223372036854808585, 138,
   136, 2147516425, 2147483658,
   2147516555, 9223372036854775947, 9223372036854808713,
   9223372036854808579, 9223372036854808578, 9223372036854775936,
   32778, 9223372039002259466, 9223372039002292353,
   9223372036854808704, 2147483649, 9223372039002292232]

/-- One round of the Keccak-f[1600] permutation on a 25-lane state. -/
def keccakRound (st : List Nat) (rc : Nat) : List Nat :=
  let C := (List.range 5).map (fun x =>
    st.getD x 0 ^^^ st.getD (x + 5) 0 ^^^ st.getD (x + 10) 0 ^^^
      st.getD (x + 15) 0 ^^^ st.getD (x + 20) 0)
  let D := (List.range 5).map (fun x =>
    C.getD ((x + 4) % 5) 0 ^^^ rotl64 (C.getD ((x + 1) % 5) 0) 1)
  let A1 := (List.range 25).map (fun i => st.getD i 0 ^^^ D.getD (i % 5) 0)
  let B := (List.range 25).map (fun i =>
    let j := (i % 5 + 3 * (i / 5)) % 5 + 5 * (i % 5)
    rotl64 (A1.getD j 0) (keccakRho.getD j 0))
  let A2 := (List.range 25).map (fun i =>
    B.getD i 0 ^^^
      ((18446744073709551615 ^^^ B.getD ((i % 5 + 1) % 5 + 5 * (i / 5)) 0) &&&
        B.getD ((i % 5 + 2) % 5 + 5 * (i / 5)) 0))
  (List.range 25).map (fun i => if i = 0 then A2.getD 0 0 ^^^ rc else A2.getD i 0)

/-- The full Keccak-f[1600] permutation (24 rounds). -/
def keccakF (st : List Nat) : List Nat := keccakRC.foldl keccakRound st

/-- Absorb one 136-byte rate block into the sponge state and permute. -/
def keccakAbsorb (st : List Nat) (block : List Nat) : List Nat :=
  keccakF ((List.range 25).map (fun i =>
    if i < 17 then st.getD i 0 ^^^ leToNat ((block.drop (8 * i)).take 8)
    else st.getD i 0))

/-- Keccak multi-rate padding with domain byte 0x01 (the original Keccak
padding Ethereum uses, not the NIST SHA-3 padding). -/
def keccakPad (msg : List Nat) : List Nat :=
  let padLen := 136 - msg.length % 136
  if padLen = 1 then msg ++ [0x81]
  else msg ++ 0x01 :: List.replicate (padLen - 2) 0 ++ [0x80]

/-- Split a byte list into 136-byte chunks (fuel-driven structural recursion). -/
def chunks136 : Nat → List Nat → List (List Nat)
  | 0, _ => []
  | _ + 1, [] => []
  | fuel + 1, l => l.take 136 :: chunks136 fuel (l.drop 136)

/-- Keccak-256 of a byte string, as its 32 digest bytes. -/
def keccak256 (msg : List Nat) : List Nat :=
  let padded := keccakPad msg
  let st := (chunks136 padded.length padded).foldl keccakAbsorb (List.replicate 25 0)
  leBytes 8 (st.getD 0 0) ++ leBytes 8 (st.getD 1 0) ++
    leBytes 8 (st.getD 2 0) ++ leBytes 8 (st.getD 3 0)

/-- A Keccak-256 digest is always exactly 32 bytes. -/
theorem keccak256_length (msg : List Nat) : (keccak256 msg).length = 32 := by
  simp [keccak256, leBytes_length]

/-! ## secp256k1 arithmetic (the `k256` crate primitives)

The curve library is the trusted arithmetic primitive of the module
(`y^2 = x^3 + 7` over the field of order `secpP`, group order `secpN`).
Points are embedded in Jacobian projective coordinates, matching the
crate's `ProjectivePoint`, with the identity characterised by `z = 0`. -/

/-- The secp256k1 base field order. -/
def secpP : Nat :=
  0xFFFFFFFFFFFFFFFFFFFFFFFFFFFFFFFFFFFFFFFFFFFFFFFFFFFFFFFEFFFFFC2F

/-- The secp256k1 group (scalar field) order. -/
def secpN : Nat :=
  0xFFFFFFFFFFFFFFFFFFFFFFFFFFFFFFFEBAAEDCE6AF48A03BBFD25E8CD0364141

/-- x-coordinate of the secp256k1 generator. -/
def secpGx : Nat :=
  0x79BE667EF9DCBBAC55A06295CE870B07029BFCDB2DCE28D959F2815B16F81798

/-- y-coordinate of the secp256k1 generator. -/
def secpGy : Nat :=
  0x483ADA7726A3C4655DA4FBFC0E1108A8FD17B448A68554199C47D08FFB10D4B8

/-- Modular exponentiation by square-and-multiply over the 256 possible
bit positions of the exponent. -/
def powMod (b e m : Nat) : Nat :=
  (List.range 256).foldr
    (fun i acc =>
      let s := acc * acc % m
      if e.testBit i then s * (b % m) % m else s)
    1

/-- A point of the curve in affine form: either the identity (the point at
infinity) or a coordinate pair. -/
inductive AffinePoint where
  | identity : AffinePoint
  | mk (x y : Nat) : AffinePoint
deriving DecidableEq

/-- A curve point in Jacobian projective coordinates `(X / Z^2, Y / Z^3)`;
`z = 0` is the identity. -/
structure ProjectivePoint where
  x : Nat
  y : Nat
  z : Nat
deriving DecidableEq

/-- The Jacobian identity point. -/
def ProjectivePoint.IDENTITY : ProjectivePoint := ⟨1, 1, 0⟩

/-- The secp256k1 generator in Jacobian coordinates. -/
def ProjectivePoint.GENERATOR : ProjectivePoint := ⟨secpGx, secpGy, 1⟩

/-- Jacobian point doubling for a curve with `a = 0`. -/
def ProjectivePoint.double (P : ProjectivePoint) : ProjectivePoint :=
  let p := secpP
  let S := 4 * P.x * P.y % p * P.y % p
  let M := 3 * P.x % p * P.x % p
  let X2 := (M * M + 2 * p * p - 2 * S) % p
  let Y2 := (M * ((S + p - X2) % p) % p + 8 * p -
    8 * (P.y * P.y % p * P.y % p * P.y % p)) % p
  let Z2 := 2 * P.y * P.z % p
  ⟨X2, Y2, Z2⟩

/-- Jacobian point addition (complete: handles identity, doubling and
inverse-pair cases explicitly). -/
def ProjectivePoint.add (P Q : ProjectivePoint) : ProjectivePoint :=
  let p := secpP
  if P.z = 0 then Q
  else if Q.z = 0 then P
  else
    let Z1S := P.z * P.z % p
    let Z2S := Q.z * Q.z % p
    let U1 := P.x * Z2S % p
    let U2 := Q.x * Z1S % p
    let S1 := P.y * Z2S % p * Q.z % p
    let S2 := Q.y * Z1S % p * P.z % p
    if U1 = U2 then
      if S1 = S2 then P.double else ProjectivePoint.IDENTITY
    else
      let H := (U2 + p - U1) % p
      let R := (S2 + p - S1) % p
      let HS := H * H % p
      let HC := HS * H % p
      let X3 := (R * R % p + 4 * p - HC - 2 * (U1 * HS % p)) % p
      let Y3 := (R * ((U1 * HS % p + p - X3) % p) % p + p - S1 * HC % p) % p
      let Z3 := H * P.z % p * Q.z % p
      ⟨X3, Y3, Z3⟩

/-- Scalar multiplication by MSB-first double-and-add over the 256 bit
positions of the scalar. -/
def ProjectivePoint.mul (P : ProjectivePoint) (k : Nat) : ProjectivePoint :=
  (List.range 256).foldr
    (fun i acc =>
      let d := acc.double
      if k.testBit i then d.add P else d)
    ProjectivePoint.IDENTITY

/-- Lift an affine point into Jacobian coordinates. -/
def ProjectivePoint.fromAffine : AffinePoint → ProjectivePoint
  | .identity => ProjectivePoint.IDENTITY
  | .mk x y => ⟨x, y, 1⟩

/-- Normalise a Jacobian point back to affine form, inverting `z` by
Fermat's little theorem. -/
def ProjectivePoint.toAffine (P : ProjectivePoint) : AffinePoint :=
  if P.z = 0 then .identity
  else
    let p := secpP
    let zi := powMod P.z (p - 2) p
    .mk (P.x * zi % p * zi % p) (P.y * zi % p * zi % p * zi % p)

/-! ## UTF-8 string bytes

NEAR account ids and derivation paths are strings; `format!` hashes their
UTF-8 bytes. -/

/-- UTF-8 encoding of one Unicode scalar value. -/
def charUtf8 (c : Char) : List Nat :=
  let n := c.toNat
  if n < 128 then [n]
  else if n < 2048 then [192 + n / 64, 128 + n % 64]
  else if n < 65536 then [224 + n / 4096, 128 + n / 64 % 64, 128 + n % 64]
  else [240 + n / 262144, 128 + n / 4096 % 64, 128 + n / 64 % 64, 128 + n % 64]

/-- The UTF-8 bytes of a string. -/
def strBytes (s : String) : List Nat := (s.data.map charUtf8).flatten

theorem strBytes_append (a b : String) :
    strBytes (a ++ b) = strBytes a ++ strBytes b := by
  simp [strBytes]

/-! ## The `kdf.rs` module -/

/-- The fixed, versioned domain-separation constant
`EPSILON_DERIVATION_PREFIX` of `kdf.rs`. -/
def EPSILON_DERIVATION_STR : String :=
  "near-mpc-recovery v0.1.0 epsilon derivation:"

/-- `U256::from_le_slice`: reads exactly 32 little-endian bytes; any other
length is a panic in the source, modelled as `none`. -/
def U256.fromLeSlice (bytes : List Nat) : Option Nat :=
  if bytes.length = 32 then some (leToNat bytes) else none

/-- `Scalar::from_uint_unchecked`: the scalar-field element denoted by a
256-bit word, in canonical reduced form. -/
def Scalar.fromUintUnchecked (w : Nat) : Nat := w % secpN

/-- `ScalarExt::from_bytes` (`Scalar::from_uint_unchecked(U256::from_le_slice(bytes))`),
with the length panic of `from_le_slice` surfaced as `none`. -/
def Scalar.fromBytes (bytes : List Nat) : Option Nat :=
  (U256.fromLeSlice bytes).map Scalar.fromUintUnchecked

/-- `derive_epsilon`: hash the domain-separated
`"{EPSILON_DERIVATION_PREFIX}{signer_id},{path}"` message with SHA-256 and
read the digest as a scalar.  The `getD 0` arm is the unreachable
`from_le_slice` length panic; `derive_epsilon_total` (claim C9) proves the
`some` branch is always taken. -/
def derive_epsilon (signer_id : String) (path : String) : Nat :=
  (Scalar.fromBytes (sha256 (strBytes
    (EPSILON_DERIVATION_STR ++ signer_id ++ "," ++ path)))).getD 0

/-- `derive_key`: `(ProjectivePoint::GENERATOR * epsilon + public_key).to_affine()`. -/
def derive_key (public_key : AffinePoint) (epsilon : Nat) : AffinePoint :=
  ((ProjectivePoint.GENERATOR.mul epsilon).add
    (ProjectivePoint.fromAffine public_key)).toAffine

/-- `AffinePoint::to_encoded_point(false)`: uncompressed SEC1 encoding —
tag byte 0x04 followed by the 32-byte big-endian coordinates; the identity
encodes as the single tag byte 0x00. -/
def AffinePoint.toEncodedPoint : AffinePoint → List Nat
  | .identity => [0]
  | .mk x y => 4 :: (beBytes 32 x ++ beBytes 32 y)

/-- `ethers_core::utils::raw_public_key_to_address`: Keccak-256 of the
64-byte X‖Y body, keeping `digest[12..]` — the last 20 digest bytes. -/
def raw_public_key_to_address (pubkey : List Nat) : List Nat :=
  (keccak256 pubkey).drop 12

/-- `derive_key_for_account`: epsilon from `(account_id, path)`, child key
from the MPC key, then the Ethereum address of the child key's uncompressed
encoding without its tag byte. -/
def derive_key_for_account (mpc_public_key : AffinePoint)
    (account_id : String) (path : String) : List Nat :=
  let epsilon := derive_epsilon account_id path
  let affine_point := derive_key mpc_public_key epsilon
  raw_public_key_to_address (affine_point.toEncodedPoint.drop 1)

/-- `near_sdk::CurveType`. -/
inductive CurveType where
  | ED25519 : CurveType
  | SECP256K1 : CurveType
deriving DecidableEq

/-- The leading byte of a `near_sdk::PublicKey`'s data for each curve type. -/
def CurveType.toByte : CurveType → Nat
  | .ED25519 => 0
  | .SECP256K1 => 1

/-- A `near_sdk::PublicKey`: a curve-type tag plus raw key bytes (64 bytes
of X‖Y for a well-formed SECP256K1 key). -/
structure NearPublicKey where
  curve : CurveType
  keyData : List Nat
deriving DecidableEq

/-- `near_sdk::PublicKey::into_bytes`: the stored representation, whose
first byte is the curve-type tag. -/
def NearPublicKey.intoBytes (pk : NearPublicKey) : List Nat :=
  pk.curve.toByte :: pk.keyData

/-- `PublicKeyConversionError` of `kdf.rs`. -/
inductive PublicKeyConversionError where
  | WrongCurveType (t : CurveType) : PublicKeyConversionError
  | DecodingError : PublicKeyConversionError
  | InvalidKeyData : PublicKeyConversionError
deriving DecidableEq

/-- `sec1::EncodedPoint::from_bytes`: accept the bytes when the leading tag
is consistent with the length (identity 1 byte, compressed 33, uncompressed
65); otherwise reject. -/
def EncodedPoint.fromBytes (bytes : List Nat) : Option (List Nat) :=
  match bytes with
  | [] => none
  | t :: rest =>
    if t = 0 then if rest.length = 0 then some bytes else none
    else if t = 2 ∨ t = 3 then if rest.length = 32 then some bytes else none
    else if t = 4 then if rest.length = 64 then some bytes else none
    else none

/-- `AffinePoint::from_encoded_point`: the identity encoding gives the
identity; an uncompressed encoding is accepted exactly when both coordinates
are canonical field elements satisfying `y^2 = x^3 + 7`; a compressed
encoding recovers `y` as the modular square root of `x^3 + 7` with the
parity the tag selects. -/
def AffinePoint.fromEncodedPoint (ep : List Nat) : Option AffinePoint :=
  match ep with
  | [0] => some .identity
  | 4 :: body =>
    let x := beToNat (body.take 32)
    let y := beToNat (body.drop 32)
    if x < secpP ∧ y < secpP ∧ y * y % secpP = (x * x % secpP * x + 7) % secpP then
      some (.mk x y)
    else none
  | t :: body =>
    if t = 2 ∨ t = 3 then
      let x := beToNat body
      if x < secpP then
        let alpha := (x * x % secpP * x + 7) % secpP
        let y0 := powMod alpha ((secpP + 1) / 4) secpP
        if y0 * y0 % secpP = alpha then
          some (.mk x (if y0 % 2 = t % 2 then y0 else secpP - y0))
        else none
      else none
    else none
  | _ => none

/-- `near_public_key_to_affine`.  The `#[cfg(target_arch = "wasm32")]`
curve-type check is modelled by the explicit `strict` flag (`true` in the
wasm contract build, `false` otherwise); the source then overwrites the
first stored byte with `Tag::Uncompressed` and decodes. -/
def near_public_key_to_affine (strict : Bool) (public_key : NearPublicKey) :
    Except PublicKeyConversionError AffinePoint :=
  if strict = true ∧ public_key.curve ≠ CurveType.SECP256K1 then
    .error (.WrongCurveType public_key.curve)
  else
    match EncodedPoint.fromBytes (4 :: public_key.intoBytes.tail) with
    | none => .error .DecodingError
    | some ep =>
      match AffinePoint.fromEncodedPoint ep with
      | some a => .ok a
      | none => .error .InvalidKeyData

/-- Modelled from the spec: `ForeignAddress` (defined in
`src/foreign_address.rs`, which is not part of the provided sources) is the
target chain's fixed-length 20-byte address value; `From<Address>` wraps the
address bytes. -/
structure ForeignAddress where
  bytes : List Nat
deriving DecidableEq

/-- `get_mpc_address`: parse the MPC key, then derive with the gas
station's own account id as the epsilon owner identity and the caller's
account string as the derivation path. -/
def get_mpc_address (strict : Bool) (mpc_public_key : NearPublicKey)
    (gas_station_account_id : String) (caller_account_id : String) :
    Except PublicKeyConversionError ForeignAddress :=
  match near_public_key_to_affine strict mpc_public_key with
  | .error e => .error e
  | .ok affine =>
    .ok ⟨derive_key_for_account affine gas_station_account_id caller_account_id⟩

/-! ## Specification-side definitions

Each definition below follows the wording of the specification (§4), to be
compared with the embedded source functions above. -/

/-- The epsilon of the spec (§4.1): SHA-256 of the fixed versioned prefix
string, the owner identity, the separator `','` (byte 44) and the path,
read as a little-endian unsigned integer and reduced modulo the curve's
scalar-field order. -/
def epsilonOfSpec (owner : String) (path : String) : Nat :=
  leToNat (sha256 (strBytes EPSILON_DERIVATION_STR ++ strBytes owner ++
    [44] ++ strBytes path)) % secpN

/-- The child key of the spec (§4.2): `(Generator * epsilon) + master` by
the curve's group law, converted to affine form. -/
def derive_child_key (master : AffinePoint) (epsilon : Nat) : AffinePoint :=
  ((ProjectivePoint.GENERATOR.mul epsilon).add
    (ProjectivePoint.fromAffine master)).toAffine

/-- The last 20 bytes of a byte string. -/
def last20 (l : List Nat) : List Nat := l.drop (l.length - 20)

/-- The address of the spec (§4.3): serialize the child key uncompressed,
discard the tag byte keeping the 64-byte X‖Y body, hash the body with
Keccak-256 and truncate to the last 20 bytes.  The identity has no 64-byte
body, so no address. -/
def derive_address (K : AffinePoint) : Option (List Nat) :=
  match K with
  | .identity => none
  | .mk x y => some (last20 (keccak256 (beBytes 32 x ++ beBytes 32 y)))

/-- The parse of the spec (§4.4), after the curve-type check: overwrite the
first blob byte with the canonical uncompressed tag, decode as SEC1
(`DecodingError` on failure), then require a valid finite curve point
(`InvalidKeyData` otherwise, including the point at infinity). -/
def parse_public_key (pk : NearPublicKey) :
    Except PublicKeyConversionError AffinePoint :=
  match EncodedPoint.fromBytes (4 :: pk.intoBytes.tail) with
  | none => .error .DecodingError
  | some ep =>
    match AffinePoint.fromEncodedPoint ep with
    | some (.mk x y) => .ok (.mk x y)
    | _ => .error .InvalidKeyData

/-- The raw-blob encoding of a curve point (§8 round-trip): the SECP256K1
curve-type tag with the raw X‖Y body populated consistently. -/
def NearPublicKey.ofPoint (x y : Nat) : NearPublicKey :=
  ⟨CurveType.SECP256K1, beBytes 32 x ++ beBytes 32 y⟩

/-! ## Claim theorems -/

theorem strBytes_comma : strBytes "," = [44] := by decide

/-- **C1**: for every owner identity and path string, `derive_epsilon`
equals the scalar obtained by SHA-256-hashing the concatenation of the
fixed versioned prefix, the owner, the separator `','` and the path, read
little-endian and reduced modulo the curve's scalar-field order. -/
theorem derive_epsilon_matches_spec (owner path : String) :
    derive_epsilon owner path = epsilonOfSpec owner path := by
  have hb : strBytes (EPSILON_DERIVATION_STR ++ owner ++ "," ++ path) =
      strBytes EPSILON_DERIVATION_STR ++ strBytes owner ++ [44] ++ strBytes path := by
    rw [strBytes_append, strBytes_append, strBytes_append, strBytes_comma]
  rw [derive_epsilon, hb, epsilonOfSpec, Scalar.fromBytes, U256.fromLeSlice,
    if_pos (sha256_length _)]
  rfl

/-- **C2**: `derive_key` computes the affine form of
`(Generator * epsilon) + master` under the curve's group law. -/
theorem derive_key_matches_spec (master : AffinePoint) (epsilon : Nat) :
    derive_key master epsilon = derive_child_key master epsilon := rfl

/-- **C6 counterexample**: at `master = -G`, `epsilon = 1` the group-law sum
is the point at infinity, yet `derive_key` returns normally with the affine
identity point as a substitute key — it does not abort or propagate any
fault, contrary to the claim. -/
theorem derive_key_silent_at_infinity :
    derive_key (AffinePoint.mk secpGx (secpP - secpGy)) 1 =
      AffinePoint.identity := by decide

/-- **C6 amended**: whenever `(Generator * epsilon) + master` is the point
at infinity, `derive_key` silently returns the affine identity point; no
fault is raised. -/
theorem derive_key_identity_of_infinite_sum (master : AffinePoint) (epsilon : Nat)
    (h : ((ProjectivePoint.GENERATOR.mul epsilon).add
      (ProjectivePoint.fromAffine master)).z = 0) :
    derive_key master epsilon = AffinePoint.identity := by
  rw [derive_key, ProjectivePoint.toAffine, if_pos h]

/-- Witness for the amended C6 at `master = -G`, `epsilon = 1`. -/
theorem derive_key_identity_of_infinite_sum_witness :
    ((ProjectivePoint.GENERATOR.mul 1).add
        (ProjectivePoint.fromAffine (AffinePoint.mk secpGx (secpP - secpGy)))).z = 0 ∧
      derive_key (AffinePoint.mk secpGx (secpP - secpGy)) 1 = AffinePoint.identity := by
  have h : ((ProjectivePoint.GENERATOR.mul 1).add
      (ProjectivePoint.fromAffine (AffinePoint.mk secpGx (secpP - secpGy)))).z = 0 := by
    decide
  exact ⟨h, derive_key_identity_of_infinite_sum _ _ h⟩

/-- **C8**: the whole pipeline is deterministic — re-running
`derive_epsilon`, `derive_key` and `derive_key_for_account` on identical
inputs reproduces bit-identical scalars, child keys and addresses (all
three are pure functions of their inputs). -/
theorem pipeline_deterministic (master : AffinePoint) (owner path : String) :
    derive_epsilon owner path = derive_epsilon owner path ∧
      derive_key master (derive_epsilon owner path) =
        derive_key master (derive_epsilon owner path) ∧
      derive_key_for_account master owner path =
        derive_key_for_account master owner path :=
  ⟨rfl, rfl, rfl⟩

/-- **C9**: `derive_epsilon` is total — the SHA-256 digest always has
exactly the 32 bytes `U256::from_le_slice` requires, so the scalar
conversion always succeeds and no panic is reachable. -/
theorem derive_epsilon_total (owner path : String) :
    (sha256 (strBytes (EPSILON_DERIVATION_STR ++ owner ++ "," ++ path))).length = 32 ∧
      Scalar.fromBytes (sha256 (strBytes
        (EPSILON_DERIVATION_STR ++ owner ++ "," ++ path))) =
        some (derive_epsilon owner path) := by
  refine ⟨sha256_length _, ?_⟩
  rw [derive_epsilon, Scalar.fromBytes, U256.fromLeSlice, if_pos (sha256_length _)]
  rfl

/-- `EncodedPoint::from_bytes` on tag-0x04 input demands exactly 64 further
bytes. -/
theorem fromBytes_uncompressed (d : List Nat) :
    EncodedPoint.fromBytes (4 :: d) =
      if d.length = 64 then some (4 :: d) else none := by
  simp [EncodedPoint.fromBytes]

/-- **C3**: for a non-infinity child key, the uncompressed encoding minus
its tag byte is the 64-byte X‖Y body, and the address the code returns for
`K = derive_key(M, derive_epsilon(account, path))` is exactly the last 20
bytes of the Keccak-256 hash of that body. -/
theorem derive_key_for_account_matches_spec (master : AffinePoint)
    (owner path : String)
    (h : derive_key master (derive_epsilon owner path) ≠ AffinePoint.identity) :
    ((derive_key master (derive_epsilon owner path)).toEncodedPoint.drop 1).length = 64 ∧
      derive_address (derive_key master (derive_epsilon owner path)) =
        some (derive_key_for_account master owner path) := by
  rcases hK : derive_key master (derive_epsilon owner path) with _ | ⟨x, y⟩
  · exact absurd hK h
  · refine ⟨by simp [AffinePoint.toEncodedPoint, beBytes_length], ?_⟩
    rw [derive_key_for_account]
    simp only [hK, derive_address, AffinePoint.toEncodedPoint,
      raw_public_key_to_address, last20, keccak256_length, List.drop_succ_cons,
      List.drop_zero]

/-- **C4**: past the curve-type check, `near_public_key_to_affine`
overwrites the first blob byte with the uncompressed tag, decodes as SEC1
(`DecodingError` on failure), demands a valid finite curve point
(`InvalidKeyData` otherwise) and returns the validated point. -/
theorem near_public_key_to_affine_matches_spec (strict : Bool)
    (pk : NearPublicKey)
    (h : ¬(strict = true ∧ pk.curve ≠ CurveType.SECP256K1)) :
    near_public_key_to_affine strict pk = parse_public_key pk := by
  rw [near_public_key_to_affine, if_neg h, parse_public_key]
  have ht : pk.intoBytes.tail = pk.keyData := rfl
  rw [ht, fromBytes_uncompressed]
  by_cases hl : pk.keyData.length = 64
  · rw [if_pos hl]
    show (match AffinePoint.fromEncodedPoint (4 :: pk.keyData) with
        | some a => Except.ok a
        | none => Except.error PublicKeyConversionError.InvalidKeyData) =
      (match AffinePoint.fromEncodedPoint (4 :: pk.keyData) with
        | some (AffinePoint.mk x y) => Except.ok (AffinePoint.mk x y)
        | _ => Except.error PublicKeyConversionError.InvalidKeyData)
    have hfe : AffinePoint.fromEncodedPoint (4 :: pk.keyData) =
        if beToNat (pk.keyData.take 32) < secpP ∧
            beToNat (pk.keyData.drop 32) < secpP ∧
            beToNat (pk.keyData.drop 32) * beToNat (pk.keyData.drop 32) % secpP =
              (beToNat (pk.keyData.take 32) * beToNat (pk.keyData.take 32) % secpP *
                beToNat (pk.keyData.take 32) + 7) % secpP then
          some (.mk (beToNat (pk.keyData.take 32)) (beToNat (pk.keyData.drop 32)))
        else none := rfl
    rw [hfe]
    by_cases hc : beToNat (pk.keyData.take 32) < secpP ∧
        beToNat (pk.keyData.drop 32) < secpP ∧
        beToNat (pk.keyData.drop 32) * beToNat (pk.keyData.drop 32) % secpP =
          (beToNat (pk.keyData.take 32) * beToNat (pk.keyData.take 32) % secpP *
            beToNat (pk.keyData.take 32) + 7) % secpP
    · rw [if_pos hc]
    · rw [if_neg hc]
  · rw [if_neg hl]

/-- **C5**: for a blob that parses in strict mode, flipping the curve-type
tag to the other curve fails with `WrongCurveType` carrying that tag, and
truncating the blob by one byte fails with `DecodingError`; no point is
returned in either case. -/
theorem tampered_blob_rejected (d : List Nat) (P : AffinePoint)
    (h : near_public_key_to_affine true ⟨CurveType.SECP256K1, d⟩ = .ok P) :
    near_public_key_to_affine true ⟨CurveType.ED25519, d⟩ =
        .error (.WrongCurveType CurveType.ED25519) ∧
      near_public_key_to_affine true ⟨CurveType.SECP256K1, d.dropLast⟩ =
        .error .DecodingError := by
  have hlen : d.length = 64 := by
    by_contra hl
    rw [near_public_key_to_affine, if_neg (by simp),
      show (⟨CurveType.SECP256K1, d⟩ : NearPublicKey).intoBytes.tail = d from rfl,
      fromBytes_uncompressed, if_neg hl] at h
    exact absurd h (by simp)
  refine ⟨?_, ?_⟩
  · have hcond : true = true ∧
        (⟨CurveType.ED25519, d⟩ : NearPublicKey).curve ≠ CurveType.SECP256K1 :=
      ⟨rfl, fun hc => CurveType.noConfusion hc⟩
    rw [near_public_key_to_affine, if_pos hcond]
  · have h63 : ¬ d.dropLast.length = 64 := by
      rw [List.length_dropLast, hlen]
      decide
    rw [near_public_key_to_affine, if_neg (by simp),
      show (⟨CurveType.SECP256K1, d.dropLast⟩ : NearPublicKey).intoBytes.tail =
        d.dropLast from rfl,
      fromBytes_uncompressed, if_neg h63]

/-- A SECP256K1-tagged blob whose 64-byte body holds a valid finite curve
point parses to that point. -/
theorem near_parse_ok (strict : Bool) (d : List Nat) (x y : Nat)
    (hlen : d.length = 64)
    (htk : beToNat (d.take 32) = x) (hdp : beToNat (d.drop 32) = y)
    (hx : x < secpP) (hy : y < secpP)
    (hcurve : y * y % secpP = (x * x % secpP * x + 7) % secpP) :
    near_public_key_to_affine strict ⟨CurveType.SECP256K1, d⟩ =
      .ok (AffinePoint.mk x y) := by
  rw [near_public_key_to_affine, if_neg (by simp),
    show (⟨CurveType.SECP256K1, d⟩ : NearPublicKey).intoBytes.tail = d from rfl,
    fromBytes_uncompressed, if_pos hlen]
  show (match AffinePoint.fromEncodedPoint (4 :: d) with
      | some a => Except.ok a
      | none => Except.error PublicKeyConversionError.InvalidKeyData) =
    Except.ok (AffinePoint.mk x y)
  have hfe : AffinePoint.fromEncodedPoint (4 :: d) =
      if beToNat (d.take 32) < secpP ∧ beToNat (d.drop 32) < secpP ∧
          beToNat (d.drop 32) * beToNat (d.drop 32) % secpP =
            (beToNat (d.take 32) * beToNat (d.take 32) % secpP *
              beToNat (d.take 32) + 7) % secpP then
        some (.mk (beToNat (d.take 32)) (beToNat (d.drop 32)))
      else none := rfl
  rw [hfe, htk, hdp, if_pos ⟨hx, hy, hcurve⟩]

/-- **C7**: encoding a valid finite curve point into the raw blob format
(SECP256K1 curve-type tag, raw X‖Y body) and parsing it back returns the
original point, in strict and trusting mode alike. -/
theorem parse_roundtrip (strict : Bool) (x y : Nat)
    (hx : x < secpP) (hy : y < secpP)
    (hcurve : y * y % secpP = (x * x % secpP * x + 7) % secpP) :
    near_public_key_to_affine strict (NearPublicKey.ofPoint x y) =
      .ok (AffinePoint.mk x y) := by
  have hP : secpP < 256 ^ 32 := by norm_num [secpP]
  refine near_parse_ok strict (beBytes 32 x ++ beBytes 32 y) x y
    (by simp [beBytes_length]) ?_ ?_ hx hy hcurve
  · rw [List.take_left' (beBytes_length 32 x), beToNat_beBytes,
      Nat.mod_eq_of_lt (lt_trans hx hP)]
  · rw [List.drop_left' (beBytes_length 32 x), beToNat_beBytes,
      Nat.mod_eq_of_lt (lt_trans hy hP)]

/-- **C10**: `get_mpc_address` derives with the gas station's own account
id as the epsilon owner identity and the caller's account string as the
derivation path — for every successfully parsed key `P` the result is
exactly `derive_key_for_account(P, gas_station_account_id,
caller_account_id)`. -/
theorem get_mpc_address_owner_is_gas_station (strict : Bool)
    (pk : NearPublicKey) (gas_station_account_id caller_account_id : String)
    (P : AffinePoint)
    (h : near_public_key_to_affine strict pk = .ok P) :
    get_mpc_address strict pk gas_station_account_id caller_account_id =
      .ok ⟨derive_key_for_account P gas_station_account_id caller_account_id⟩ := by
  rw [get_mpc_address, h]

/-! ## Witnesses

Concrete instantiations discharging each hypothesis-carrying claim theorem,
with the embedded code evaluated on explicit inputs (master key `G`, owner
identity `"a"`, path `"b"`, and the generator's raw blob). -/

/-- Witness for C3: at master key `G`, owner `"a"`, path `"b"` the child key
is finite and the theorem applies. -/
theorem derive_key_for_account_matches_spec_witness :
    derive_key (AffinePoint.mk secpGx secpGy) (derive_epsilon "a" "b") ≠
        AffinePoint.identity ∧
      (((derive_key (AffinePoint.mk secpGx secpGy)
          (derive_epsilon "a" "b")).toEncodedPoint.drop 1).length = 64 ∧
        derive_address (derive_key (AffinePoint.mk secpGx secpGy)
            (derive_epsilon "a" "b")) =
          some (derive_key_for_account (AffinePoint.mk secpGx secpGy) "a" "b")) := by
  have h : derive_key (AffinePoint.mk secpGx secpGy) (derive_epsilon "a" "b") ≠
      AffinePoint.identity := by decide
  exact ⟨h, derive_key_for_account_matches_spec _ _ _ h⟩

/-- Witness for C4 at the generator's raw blob in strict mode. -/
theorem near_public_key_to_affine_matches_spec_witness :
    ¬((true : Bool) = true ∧
        (NearPublicKey.ofPoint secpGx secpGy).curve ≠ CurveType.SECP256K1) ∧
      near_public_key_to_affine true (NearPublicKey.ofPoint secpGx secpGy) =
        parse_public_key (NearPublicKey.ofPoint secpGx secpGy) := by
  have h : ¬((true : Bool) = true ∧
      (NearPublicKey.ofPoint secpGx secpGy).curve ≠ CurveType.SECP256K1) := by
    decide
  exact ⟨h, near_public_key_to_affine_matches_spec true _ h⟩

/-- Witness for C5 at the generator's raw blob. -/
theorem tampered_blob_rejected_witness :
    near_public_key_to_affine true
        ⟨CurveType.SECP256K1, beBytes 32 secpGx ++ beBytes 32 secpGy⟩ =
        .ok (AffinePoint.mk secpGx secpGy) ∧
      (near_public_key_to_affine true
          ⟨CurveType.ED25519, beBytes 32 secpGx ++ beBytes 32 secpGy⟩ =
          .error (.WrongCurveType CurveType.ED25519) ∧
        near_public_key_to_affine true
          ⟨CurveType.SECP256K1, (beBytes 32 secpGx ++ beBytes 32 secpGy).dropLast⟩ =
          .error .DecodingError) := by
  have h : near_public_key_to_affine true
      ⟨CurveType.SECP256K1, beBytes 32 secpGx ++ beBytes 32 secpGy⟩ =
      .ok (AffinePoint.mk secpGx secpGy) := rfl
  exact ⟨h, tampered_blob_rejected _ _ h⟩

/-- Witness for C7 at the generator. -/
theorem parse_roundtrip_witness :
    (secpGx < secpP ∧ secpGy < secpP ∧
        secpGy * secpGy % secpP = (secpGx * secpGx % secpP * secpGx + 7) % secpP) ∧
      near_public_key_to_affine false (NearPublicKey.ofPoint secpGx secpGy) =
        .ok (AffinePoint.mk secpGx secpGy) := by
  have h1 : secpGx < secpP := by decide
  have h2 : secpGy < secpP := by decide
  have h3 : secpGy * secpGy % secpP =
      (secpGx * secpGx % secpP * secpGx + 7) % secpP := by decide
  exact ⟨⟨h1, h2, h3⟩, parse_roundtrip false secpGx secpGy h1 h2 h3⟩

/-- Witness for C10 at the generator's raw blob in strict mode. -/
theorem get_mpc_address_owner_is_gas_station_witness :
    near_public_key_to_affine true (NearPublicKey.ofPoint secpGx secpGy) =
        .ok (AffinePoint.mk secpGx secpGy) ∧
      get_mpc_address true (NearPublicKey.ofPoint secpGx secpGy)
          "gas.near" "caller.near" =
        .ok ⟨derive_key_for_account (AffinePoint.mk secpGx secpGy)
          "gas.near" "caller.near"⟩ := by
  have h : near_public_key_to_affine true (NearPublicKey.ofPoint secpGx secpGy) =
      .ok (AffinePoint.mk secpGx secpGy) := rfl
  exact ⟨h, get_mpc_address_owner_is_gas_station true _ "gas.near" "caller.near" _ h⟩

end Kdf
